import Mathlib

/-!
Verification of the endpoint-discovery scanner and the environment /
variable-interpolation engine of the api-tester editor extension.

The embedding translates `src/services/EndpointDiscovery.ts` and
`src/services/EnvironmentManager.ts` into executable Lean definitions.
JavaScript strings are modelled as `List Char` (wrapped in `String` at
API boundaries), `Record<string, string>` objects as association lists
with insert-or-overwrite update, and the extension's persistent
key-value store as an explicit `List Environment` value threaded through
each operation (the stored list changes exactly when the source calls
`globalState.update`).  The handful of regular expressions in the
scanner are embedded as explicit token lists interpreted by a small
matcher whose behaviour on those specific patterns coincides with the
JavaScript regex engine (each pattern is spelled out token by token next
to the original regex).  Recursive scanners take an explicit fuel
argument so that every definition is structurally recursive and can be
evaluated by the kernel; wrappers always supply sufficient fuel.
-/

/-- Whitespace test mirroring the character class `\s` of the JavaScript
regexes and the trimming done by `String.prototype.trim` (ASCII range). -/
def jsWhite (c : Char) : Bool :=
  c = ' ' || c = '\t' || c = '\n' || c = '\r' || c = '\x0b' || c = '\x0c'

/-- `String.prototype.trim`: drop leading and trailing whitespace. -/
def jsTrim (s : List Char) : List Char :=
  ((s.dropWhile jsWhite).reverse.dropWhile jsWhite).reverse

/-- `content.split(c)` of JavaScript: split at every occurrence of the
separator character, keeping empty segments. -/
def splitOnCh (sep : Char) : List Char → List (List Char)
  | [] => [[]]
  | c :: t =>
    match splitOnCh sep t with
    | [] => [[c]]
    | l :: ls => if c = sep then [] :: l :: ls else (c :: l) :: ls

/-- `content.includes(needle)` of JavaScript (case-sensitive substring). -/
def includesL (hay needle : List Char) : Bool :=
  match hay with
  | [] => needle.isEmpty
  | _ :: t => needle.isPrefixOf hay || includesL t needle

/-- `hay.includes(needle)` on Lean strings. -/
def includesS (hay needle : String) : Bool :=
  includesL hay.data needle.data

/-- Uppercasing a JavaScript string (`toUpperCase`, ASCII fragment). -/
def upS (s : List Char) : List Char := s.map Char.toUpper

/-- Lowercasing a JavaScript string (`toLowerCase`, ASCII fragment). -/
def downS (s : List Char) : List Char := s.map Char.toLower

/-- First-match lookup in an association list modelling a
`Record<string, string>` object read `m[k]`. -/
def lookupVar : List (String × String) → String → Option String
  | [], _ => none
  | p :: t, k => if p.1 = k then some p.2 else lookupVar t k

/-- Insert-or-overwrite update of a `Record<string, string>` object
(`m[k] = v`): an existing binding of `k` is replaced in place, a new key
is appended. -/
def upsertVar (m : List (String × String)) (k v : String) : List (String × String) :=
  if m.any (fun p => p.1 = k) then
    m.map (fun p => if p.1 = k then (k, v) else p)
  else
    m ++ [(k, v)]

/-- `delete m[k]` on a `Record<string, string>` object. -/
def deleteVarKey (m : List (String × String)) (k : String) : List (String × String) :=
  m.filter (fun p => !(p.1 = k : Bool))

/-- Object spread `{...a, ...b}`: bindings of `b` overwrite bindings of
`a` on key collision. -/
def mergeRecords (a b : List (String × String)) : List (String × String) :=
  b.foldl (fun acc p => upsertVar acc p.1 p.2) a

/-- The `DiscoveredEndpoint` record of `EndpointDiscovery.ts` (the
optional `params` field is represented by a list that is empty exactly
when the source leaves the field `undefined`; the unused optional
`queryParams`/`bodySchema`/`description` fields are omitted). -/
structure DiscoveredEndpoint where
  method : String
  path : String
  file : String
  line : Nat
  framework : String
  params : List String
deriving DecidableEq, Repr

/-- The dedup key `` `${ep.method}:${ep.path}:${ep.file}` `` used by
`deduplicateEndpoints`. -/
def endpointKey (e : DiscoveredEndpoint) : String :=
  e.method ++ ":" ++ e.path ++ ":" ++ e.file

/-- The filter loop of `deduplicateEndpoints` with its `seen` set of
keys (modelled as the list of keys added so far). -/
def dedupGo (seen : List String) : List DiscoveredEndpoint → List DiscoveredEndpoint
  | [] => []
  | e :: t =>
    if seen.contains (endpointKey e) then dedupGo seen t
    else e :: dedupGo (endpointKey e :: seen) t

/-- `deduplicateEndpoints`: keep the first endpoint seen for each key
string, in first-seen order. -/
def deduplicateEndpoints (l : List DiscoveredEndpoint) : List DiscoveredEndpoint :=
  dedupGo [] l

/-- Generic first-occurrence filter (specification device): keep the
first element for each value of `f`, dropping later elements whose
`f`-value was already kept.  Fuel-driven so it is structurally
recursive; the wrapper supplies `l.length`. -/
def keepFirstAux {α β : Type} [DecidableEq β] (f : α → β) : Nat → List α → List α
  | 0, _ => []
  | _ + 1, [] => []
  | n + 1, x :: t => x :: keepFirstAux f n (t.filter (fun y => !(f y = f x : Bool)))

/-- Keep, for each `f`-value, exactly the first element carrying it. -/
def keepFirstBy {α β : Type} [DecidableEq β] (f : α → β) (l : List α) : List α :=
  keepFirstAux f l.length l

/-- The `(method, path, file)` triple of the uniqueness claim. -/
def endpointTriple (e : DiscoveredEndpoint) : String × String × String :=
  (e.method, e.path, e.file)

/-- One step of the loop of `findEndpointAtPosition`: the running state
is `(closestEndpoint, closestDistance)` with `none` distance standing
for the initial `Infinity`. -/
def findStep (cursor : Nat) (st : Option DiscoveredEndpoint × Option Nat)
    (e : DiscoveredEndpoint) : Option DiscoveredEndpoint × Option Nat :=
  if e.line ≤ cursor then
    let d := cursor - e.line
    match st.2 with
    | none => (some e, some d)
    | some cd => if d < cd then (some e, some d) else st
  else st

/-- `findEndpointAtPosition` restricted to its pure core: given the
endpoints of a document and the cursor line, run the closest-preceding
loop and return the winner only if it lies within 10 lines. -/
def findEndpointAtPosition (endpoints : List DiscoveredEndpoint) (cursor : Nat) :
    Option DiscoveredEndpoint :=
  match endpoints.foldl (findStep cursor) (none, none) with
  | (some e, some cd) => if cd ≤ 10 then some e else none
  | _ => none

/-- The `Environment` record of `EnvironmentManager.ts` (`vars` stands
for the source field `variables`, a reserved word in Lean). -/
structure Environment where
  id : String
  name : String
  vars : List (String × String)
  isActive : Bool
  createdAt : Nat
  updatedAt : Nat
deriving DecidableEq, Repr

/-- A `Partial<Environment>` patch as accepted by `updateEnvironment`
(the source spreads the patch over the record and then forces
`updatedAt`, so a patched `updatedAt` would be overwritten and is not
represented). -/
structure EnvUpdates where
  id : Option String := none
  name : Option String := none
  vars : Option (List (String × String)) := none
  isActive : Option Bool := none
  createdAt : Option Nat := none
deriving DecidableEq, Repr

/-- The spread `{...env, ...updates, updatedAt: Date.now()}` of
`updateEnvironment`. -/
def applyUpdates (e : Environment) (u : EnvUpdates) (now : Nat) : Environment :=
  { id := u.id.getD e.id
    name := u.name.getD e.name
    vars := u.vars.getD e.vars
    isActive := u.isActive.getD e.isActive
    createdAt := u.createdAt.getD e.createdAt
    updatedAt := now }

/-- `createEnvironment`: push a fresh environment (active exactly when
the store was empty) and persist.  `fresh` stands for the generated id
and `now` for `Date.now()`. -/
def createEnvironment (name : String) (vars : List (String × String)) (now : Nat)
    (fresh : String) (l : List Environment) : Environment × List Environment :=
  let newEnv : Environment :=
    { id := fresh, name := name, vars := vars,
      isActive := l.length = 0, createdAt := now, updatedAt := now }
  (newEnv, l ++ [newEnv])

/-- `updateEnvironment`: `findIndex` on the id, replace the found record
by its patched version, persist; `none` and an unchanged store on a
missed id. -/
def updateEnvironment (id : String) (u : EnvUpdates) (now : Nat) :
    List Environment → Option Environment × List Environment
  | [] => (none, [])
  | e :: t =>
    if e.id = id then (some (applyUpdates e u now), applyUpdates e u now :: t)
    else
      let r := updateEnvironment id u now t
      (r.1, e :: r.2)

/-- `setActiveEnvironment`: flag every matching environment active and
every other one inactive; persist only when a match was found (the
boolean result is `found`). -/
def setActiveEnvironment (id : String) (l : List Environment) :
    Bool × List Environment :=
  let l' := l.map (fun e => { e with isActive := e.id = id })
  let found := l.any (fun e => e.id = id)
  (found, if found then l' else l)

/-- `deleteEnvironment`: filter the id out; if nothing was removed
report `false`; otherwise, when no remaining environment is active and
some remain, promote the first one; persist. -/
def deleteEnvironment (id : String) (l : List Environment) :
    Bool × List Environment :=
  let filtered := l.filter (fun e => !(e.id = id : Bool))
  if filtered.length = l.length then (false, l)
  else
    let promoted :=
      if !(filtered.any (fun e => e.isActive)) && !filtered.isEmpty then
        match filtered with
        | [] => []
        | f :: t => { f with isActive := true } :: t
      else filtered
    (true, promoted)

/-- Replace the first environment satisfying `p` by its image under
`f`, reporting whether a match existed (the in-place mutation pattern
`find` + field assignment + `update` of the source). -/
def modifyFirst (p : Environment → Bool) (f : Environment → Environment) :
    List Environment → Bool × List Environment
  | [] => (false, [])
  | e :: t =>
    if p e then (true, f e :: t)
    else
      let r := modifyFirst p f t
      (r.1, e :: r.2)

/-- `setVariable`: find the environment, set the binding, bump
`updatedAt`, persist; `false` and an unchanged store on a missed id. -/
def setVariable (envId key value : String) (now : Nat) (l : List Environment) :
    Bool × List Environment :=
  match l.find? (fun e => e.id = envId) with
  | none => (false, l)
  | some _ =>
    modifyFirst (fun e => e.id = envId)
      (fun e => { e with vars := upsertVar e.vars key value, updatedAt := now }) l

/-- `deleteVariable`: additionally requires the key to be present in the
found environment before mutating. -/
def deleteVariable (envId key : String) (now : Nat) (l : List Environment) :
    Bool × List Environment :=
  match l.find? (fun e => e.id = envId) with
  | none => (false, l)
  | some env =>
    if env.vars.any (fun p => p.1 = key) then
      modifyFirst (fun e => e.id = envId)
        (fun e => { e with vars := deleteVarKey e.vars key, updatedAt := now }) l
    else (false, l)

/-- `createOrUpdateFromFile`: replace the variables of the existing
`[File] name` environment, or push a fresh inactive one; persist either
way. -/
def createOrUpdateFromFile (name : String) (vars : List (String × String))
    (sourceFile : String) (now : Nat) (l : List Environment) : List Environment :=
  let tag := "[File] " ++ name
  match l.find? (fun e => e.name = tag) with
  | some _ =>
    (modifyFirst (fun e => e.name = tag)
      (fun e => { e with vars := vars, updatedAt := now }) l).2
  | none =>
    l ++ [{ id := "file-" ++ sourceFile ++ "-" ++ toString now, name := tag,
            vars := vars, isActive := false, createdAt := now, updatedAt := now }]

/-- The invariant of §3: at most one stored environment is flagged
active. -/
def atMostOneActive (l : List Environment) : Prop :=
  l.countP (fun e => e.isActive) ≤ 1

/-- Attempt, at the head of `s`, a match of the interpolation regex
`\{\{([^}]+)\}\}|\$\{([^}]+)\}` (first alternative preferred, greedy
nonempty `[^}]+` runs).  On success return the matched text, the raw
captured name and the rest of the string. -/
def matchVarTok (s : List Char) : Option (List Char × List Char × List Char) :=
  match s with
  | '\x7b' :: '\x7b' :: r =>
    let run := r.takeWhile (fun c => !(c = '\x7d' : Bool))
    if run.isEmpty then none
    else
      match r.drop run.length with
      | '\x7d' :: '\x7d' :: rest =>
        some ('\x7b' :: '\x7b' :: run ++ ['\x7d', '\x7d'], run, rest)
      | _ => none
  | '$' :: '\x7b' :: r =>
    let run := r.takeWhile (fun c => !(c = '\x7d' : Bool))
    if run.isEmpty then none
    else
      match r.drop run.length with
      | '\x7d' :: rest => some ('$' :: '\x7b' :: run ++ ['\x7d'], run, rest)
      | _ => none
  | _ => none

/-- The global `text.replace(regex, replacer)` loop of `interpolate`:
at each position try a placeholder match, emit `resolve name` (or the
match text verbatim when `resolve` yields nothing, the `?? match`
fallback) and continue after it, otherwise copy one character.  Fuel
bounds the recursion; the wrapper passes the text length. -/
def scanVars (resolve : String → Option String) : Nat → List Char → List Char
  | 0, s => s
  | _ + 1, [] => []
  | n + 1, c :: t =>
    match matchVarTok (c :: t) with
    | some (mtext, raw, rest) =>
      (match resolve (String.mk raw) with
       | some v => v.data
       | none => mtext) ++ scanVars resolve n rest
    | none => c :: scanVars resolve n t

/-- `interpolate(text, additionalVars)`: merge the active environment's
variables with the overrides by object spread (overrides last) and
resolve each placeholder name, trimmed, in the merged record. -/
def interpolate (envs : List Environment) (text : String)
    (additionalVars : List (String × String)) : String :=
  let activeEnv := envs.find? (fun e => e.isActive)
  let merged :=
    mergeRecords (match activeEnv with | some e => e.vars | none => []) additionalVars
  String.mk (scanVars
    (fun raw => lookupVar merged (String.mk (jsTrim raw.data)))
    text.data.length text.data)

/-- Modelled from the spec (§4.2 contract, used as the reference side of
the refinement): resolve a placeholder name by trimming it and looking
it up in the override bindings first, then in the active environment's
variables; an unresolved name keeps the placeholder unchanged. -/
def interpolateContract (envs : List Environment) (text : String)
    (additionalVars : List (String × String)) : String :=
  let activeVars :=
    match envs.find? (fun e => e.isActive) with
    | some e => e.vars
    | none => []
  String.mk (scanVars
    (fun raw =>
      let nm := String.mk (jsTrim raw.data)
      (lookupVar additionalVars nm).orElse (fun _ => lookupVar activeVars nm))
    text.data.length text.data)

/-- One line of `parseEnvFile` past the skip checks: the regex
`^([^=]+)=(.*)$` splits the trimmed line at its first `=` (the greedy
`[^=]+` cannot cross one), requiring a nonempty key part. -/
def envLineKV (t : List Char) : Option (List Char × List Char) :=
  let keyRun := t.takeWhile (fun c => !(c = '=' : Bool))
  if keyRun.isEmpty then none
  else
    match t.drop keyRun.length with
    | '=' :: rest => some (keyRun, rest)
    | _ => none

/-- The quote stripping of `parseEnvFile`: one level of surrounding
quotes is removed when the trimmed value starts and ends with `"` or
starts and ends with `'` (`value.slice(1, -1)`). -/
def stripSymQuotes (v : List Char) : List Char :=
  if (v.head? = some '\x22' ∧ v.getLast? = some '\x22') ∨
     (v.head? = some '\x27' ∧ v.getLast? = some '\x27') then
    (v.drop 1).dropLast
  else v

/-- The line loop of `parseEnvFile` building the `variables` record. -/
def parseEnvLines (acc : List (String × String)) :
    List (List Char) → List (String × String)
  | [] => acc
  | line :: rest =>
    let t := jsTrim line
    if t.isEmpty then parseEnvLines acc rest
    else if t.head? = some '#' then parseEnvLines acc rest
    else
      match envLineKV t with
      | some (k, v) =>
        parseEnvLines
          (upsertVar acc (String.mk (jsTrim k)) (String.mk (stripSymQuotes (jsTrim v)))) rest
      | none => parseEnvLines acc rest

/-- `parseEnvFile`: split on newlines and process each line. -/
def parseEnvFile (content : String) : List (String × String) :=
  parseEnvLines [] (splitOnCh '\n' content.data)

/-- Modelled from the spec (§4.2 file-derived environments, reference
side of the refinement): classify one line — skip blank and `#` lines,
otherwise split `key=value` at the first `=`, trim both parts and strip
one symmetric level of quotes from the value. -/
def envContractLine (line : List Char) : Option (String × String) :=
  let t := jsTrim line
  if t.isEmpty then none
  else if t.head? = some '#' then none
  else
    let s := t.span (fun c => !(c = '=' : Bool))
    match s.2 with
    | [] => none
    | _ :: rest =>
      if s.1.isEmpty then none
      else
        let v := jsTrim rest
        let v' :=
          match v.head?, v.getLast? with
          | some a, some b =>
            if a = b ∧ (a = '\x22' ∨ a = '\x27') then (v.drop 1).dropLast else v
          | _, _ => v
        some (String.mk (jsTrim s.1), String.mk v')

/-- Modelled from the spec: the whole `.env` parse as a filter of the
classified lines folded into a record (later lines overwrite earlier
bindings of the same key). -/
def parseEnvFileContract (content : String) : List (String × String) :=
  ((splitOnCh '\n' content.data).filterMap envContractLine).foldl
    (fun acc p => upsertVar acc p.1 p.2) []

/-- JSON values as produced by `JSON.parse` (numbers restricted to the
integers, which suffices here). -/
inductive Json where
  | null
  | bool (b : Bool)
  | num (n : Int)
  | str (s : String)
  | arr (xs : List Json)
  | obj (fields : List (String × Json))

/-- JavaScript truthiness of a parsed JSON value (the `!data.name`
checks of `importEnvironment`). -/
def jsTruthy : Json → Bool
  | Json.null => false
  | Json.bool b => b
  | Json.num n => !(n = 0 : Bool)
  | Json.str s => !(s = "" : Bool)
  | Json.arr _ => true
  | Json.obj _ => true

/-- Property read `data.k` on a parsed JSON value: a present object
field, otherwise `none` (JavaScript `undefined`; reading a property of
`null` throws instead, but the surrounding `try/catch` of
`importEnvironment` turns that into the same `null` result). -/
def getField (j : Json) (k : String) : Option Json :=
  match j with
  | Json.obj fields => (fields.find? (fun p => p.1 = k)).map Prod.snd
  | _ => none

/-- Truthiness of a possibly-absent field. -/
def jsTruthyOpt : Option Json → Bool
  | some j => jsTruthy j
  | none => false

/-- View a JSON value as the `Record<string, string>` demanded by the
declared type of `createEnvironment`'s `variables` argument. -/
def asVarMap : Json → Option (List (String × String))
  | Json.obj fields =>
    fields.mapM (fun p =>
      match p.2 with
      | Json.str s => some (p.1, s)
      | _ => none)
  | _ => none

/-- `importEnvironment`: a failed `JSON.parse` (`parsed = none`) or a
missing/falsy `name` or `variables` field yields `null` with the store
untouched; otherwise `createEnvironment(data.name, data.variables)`.
The success branch is modelled for payloads of the declared TypeScript
type (string name, string-map variables); a truthy payload outside that
type is out of the modelled range and also mapped to `none`. -/
def importEnvironment (parsed : Option Json) (now : Nat) (fresh : String)
    (l : List Environment) : Option Environment × List Environment :=
  match parsed with
  | none => (none, l)
  | some data =>
    let nameF := getField data "name"
    let varsF := getField data "variables"
    if jsTruthyOpt nameF && jsTruthyOpt varsF then
      match nameF, varsF with
      | some (Json.str s), some varsJ =>
        match asVarMap varsJ with
        | some kvs =>
          let r := createEnvironment s kvs now fresh l
          (some r.1, r.2)
        | none => (none, l)
      | _, _ => (none, l)
    else (none, l)

/-- Global scan of `/:([^\/]+)/g` over the route path: at each `:` take
the maximal nonempty run of non-`/` characters (the captured name is the
match without its leading colon, `p.slice(1)`). -/
def colonScanAux : Nat → List Char → List String
  | 0, _ => []
  | _ + 1, [] => []
  | n + 1, c :: t =>
    if c = ':' then
      let run := t.takeWhile (fun d => !(d = '/' : Bool))
      if run.isEmpty then colonScanAux n t
      else String.mk run :: colonScanAux n (t.drop run.length)
    else colonScanAux n t

/-- Global scan of `/[{[]([^\]}]+)[}\]]/g`: an opening `{` or `[`, a
maximal nonempty run free of `]` and `}`, and one closing `}` or `]`
(`p.slice(1, -1)` keeps just the run). -/
def bracketScanAux : Nat → List Char → List String
  | 0, _ => []
  | _ + 1, [] => []
  | n + 1, c :: t =>
    if c = '\x7b' ∨ c = '[' then
      let run := t.takeWhile (fun d => !(d = ']' : Bool) && !(d = '\x7d' : Bool))
      match t.drop run.length with
      | d :: rest =>
        if run.isEmpty then bracketScanAux n t
        else if d = '\x7d' ∨ d = ']' then String.mk run :: bracketScanAux n rest
        else bracketScanAux n t
      | [] => bracketScanAux n t
    else bracketScanAux n t

/-- Global scan of `/<([^>]+)>/g`. -/
def angleScanAux : Nat → List Char → List String
  | 0, _ => []
  | _ + 1, [] => []
  | n + 1, c :: t =>
    if c = '<' then
      let run := t.takeWhile (fun d => !(d = '>' : Bool))
      match t.drop run.length with
      | d :: rest =>
        if run.isEmpty then angleScanAux n t
        else if d = '>' then String.mk run :: angleScanAux n rest
        else angleScanAux n t
      | [] => angleScanAux n t
    else angleScanAux n t

/-- The colon-style parameters of a route path. -/
def colonParams (p : String) : List String := colonScanAux p.data.length p.data

/-- The `{}`/`[]`-style parameters of a route path. -/
def bracketParams (p : String) : List String := bracketScanAux p.data.length p.data

/-- The `<>`-style parameters of a route path. -/
def angleParams (p : String) : List String := angleScanAux p.data.length p.data

/-- `extractPathParams`: the three scans pushed in source order —
all colon parameters, then all bracket parameters, then all angle
parameters. -/
def extractPathParams (routePath : String) : List String :=
  colonParams routePath ++ bracketParams routePath ++ angleParams routePath

/-- Tokens of the embedded regular expressions of the scanner's pattern
table.  Every pattern of `EndpointDiscovery.ts` is a sequence of these
tokens; all patterns carry the `gi` flags, so literal and word matching
is case-insensitive. -/
inductive RTok where
  | lit (w : String)
  | ws
  | ws1
  | cls1 (cs : List Char)
  | classPlus (neg : List Char) (g : Option Nat)
  | classStar (neg : List Char) (g : Option Nat)
  | alt (words : List String) (g : Option Nat)
  | opt (sub : List RTok)

/-- Case-insensitive prefix test (ASCII, matching the `i` regex flag). -/
def ciIsPre : List Char → List Char → Bool
  | [], _ => true
  | _ :: _, [] => false
  | a :: ra, b :: rb => (a.toLower == b.toLower) && ciIsPre ra rb

/-- First alternative of an alternation that matches at the head of `s`,
returned as the actual text from `s`.  The alternation word sets used in
the pattern table are mutually prefix-free, so at most one alternative
can match at a given position and committing to it is equivalent to the
backtracking search of the regex engine. -/
def firstAltWord (words : List String) (s : List Char) : Option (List Char) :=
  match words with
  | [] => none
  | w :: rest => if ciIsPre w.data s then some (s.take w.data.length) else firstAltWord rest s

/-- Push a captured group value. -/
def pushCap (g : Option Nat) (txt : List Char) (caps : List (Nat × List Char)) :
    List (Nat × List Char) :=
  match g with
  | some k => (k, txt) :: caps
  | none => caps

/-- Match a token sequence at the head of `s`, returning the rest of the
string and the captures.  `\s*`/`\s+`/`[^X]+`/`[^X]*` are matched by
maximal munch, which agrees with the greedy regex semantics for every
pattern in the table because each such run is always followed by a token
that can only consume characters excluded from the run; `(?:...)?` is
matched greedily with a retreat to the empty alternative.  Fuel makes
the recursion structural; `matchToksFuel` is always sufficient for the
patterns of the table. -/
def matchToks : Nat → List RTok → List Char → Option (List Char × List (Nat × List Char))
  | 0, _, _ => none
  | _ + 1, [], s => some (s, [])
  | n + 1, tok :: ts, s =>
    match tok with
    | RTok.lit w => if ciIsPre w.data s then matchToks n ts (s.drop w.data.length) else none
    | RTok.ws => matchToks n ts (s.dropWhile jsWhite)
    | RTok.ws1 =>
      let run := s.takeWhile jsWhite
      if run.isEmpty then none else matchToks n ts (s.drop run.length)
    | RTok.cls1 cs =>
      match s with
      | c :: rest => if cs.contains c then matchToks n ts rest else none
      | [] => none
    | RTok.classPlus neg g =>
      let run := s.takeWhile (fun c => !(neg.contains c))
      if run.isEmpty then none
      else (matchToks n ts (s.drop run.length)).map (fun r => (r.1, pushCap g run r.2))
    | RTok.classStar neg g =>
      let run := s.takeWhile (fun c => !(neg.contains c))
      (matchToks n ts (s.drop run.length)).map (fun r => (r.1, pushCap g run r.2))
    | RTok.alt words g =>
      match firstAltWord words s with
      | some txt => (matchToks n ts (s.drop txt.length)).map (fun r => (r.1, pushCap g txt r.2))
      | none => none
    | RTok.opt sub =>
      match matchToks n (sub ++ ts) s with
      | some r => some r
      | none => matchToks n ts s

/-- Fuel bound for `matchToks` (far above the size of any pattern). -/
def matchToksFuel : Nat := 10000

/-- One regex match: `match.index`, `match[0]` and the captures. -/
structure RMatch where
  index : Nat
  text : List Char
  caps : List (Nat × List Char)

/-- The `while ((match = pattern.exec(content)) !== null)` loop: find
all non-overlapping matches left to right, retrying at the next
character on failure (global flag, `lastIndex` reset beforehand). -/
def execAllAux (pat : List RTok) : Nat → Nat → List Char → List RMatch
  | 0, _, _ => []
  | n + 1, i, s =>
    match s with
    | [] => []
    | _ :: rest =>
      match matchToks matchToksFuel pat s with
      | some (rem, caps) =>
        let len := s.length - rem.length
        if len = 0 then execAllAux pat n (i + 1) rest
        else { index := i, text := s.take len, caps := caps } :: execAllAux pat n (i + len) rem
      | none => execAllAux pat n (i + 1) rest

/-- All matches of a pattern over a content string. -/
def execAll (pat : List RTok) (s : List Char) : List RMatch :=
  execAllAux pat s.length 0 s

/-- `match[k]` (`none` for a group that did not participate). -/
def getCap (m : RMatch) (k : Nat) : Option (List Char) :=
  (m.caps.find? (fun p => p.1 = k)).map Prod.snd

/-- JavaScript `x || dflt` on an optional string: absent and empty both
fall through to the default. -/
def jsOrStr (o : Option (List Char)) (dflt : List Char) : List Char :=
  match o with
  | some s => if s.isEmpty then dflt else s
  | none => dflt

/-- Truthiness of `match[k]`. -/
def jsTruthyCap (o : Option (List Char)) : Bool :=
  match o with
  | some s => !s.isEmpty
  | none => false

/-- The quote class `` ['"`] `` of the JS/TS/Python patterns. -/
def q3 : List Char := ['\x27', '\x22', '\x60']

/-- The quote class `["']` of the Go/Java/Rust/PHP patterns. -/
def q2 : List Char := ['\x22', '\x27']

/-- `(get|post|put|patch|delete|options|head)`. -/
def verbs7 : List String := ["get", "post", "put", "patch", "delete", "options", "head"]

/-- `(get|post|put|patch|delete)`. -/
def verbs5 : List String := ["get", "post", "put", "patch", "delete"]

/-- `(get|post|put|patch|delete|options)`. -/
def verbs6 : List String := ["get", "post", "put", "patch", "delete", "options"]

/-- `(GET|POST|PUT|PATCH|DELETE)`. -/
def verbs5U : List String := ["GET", "POST", "PUT", "PATCH", "DELETE"]

/-- `(GET|POST|PUT|PATCH|DELETE|HEAD|OPTIONS)`. -/
def verbs7U : List String := ["GET", "POST", "PUT", "PATCH", "DELETE", "HEAD", "OPTIONS"]

/-- The framework pattern table of `EndpointDiscovery.ts`, each regex
transcribed token by token (group numbers as in the original). -/
def patterns : String → List (List RTok)
  | "express" =>
    [[RTok.alt ["app", "router"] none, RTok.lit ".", RTok.alt verbs7 (some 1), RTok.ws,
      RTok.lit "(", RTok.ws, RTok.cls1 q3, RTok.classPlus q3 (some 2), RTok.cls1 q3],
     [RTok.alt ["app", "router"] none, RTok.lit ".route", RTok.ws, RTok.lit "(", RTok.ws,
      RTok.cls1 q3, RTok.classPlus q3 (some 1), RTok.cls1 q3, RTok.ws, RTok.lit ")",
      RTok.ws, RTok.lit ".", RTok.alt verbs5 (some 2)]]
  | "fastify" =>
    [[RTok.lit "fastify.", RTok.alt verbs7 (some 1), RTok.ws, RTok.lit "(", RTok.ws,
      RTok.cls1 q3, RTok.classPlus q3 (some 2), RTok.cls1 q3],
     [RTok.lit ".route", RTok.ws, RTok.lit "(", RTok.ws, RTok.lit "\x7b", RTok.ws,
      RTok.lit "method:", RTok.ws, RTok.cls1 q3, RTok.alt verbs5U (some 1), RTok.cls1 q3,
      RTok.ws, RTok.lit ",", RTok.ws, RTok.lit "url:", RTok.ws, RTok.cls1 q3,
      RTok.classPlus q3 (some 2), RTok.cls1 q3]]
  | "hono" =>
    [[RTok.alt ["app", "hono"] none, RTok.lit ".", RTok.alt verbs7 (some 1), RTok.ws,
      RTok.lit "(", RTok.ws, RTok.cls1 q3, RTok.classPlus q3 (some 2), RTok.cls1 q3]]
  | "nestjs" =>
    [[RTok.lit "@", RTok.alt ["Get", "Post", "Put", "Patch", "Delete", "Options", "Head"] (some 1),
      RTok.ws, RTok.lit "(", RTok.ws, RTok.opt [RTok.cls1 q3],
      RTok.classStar (q3 ++ [')']) (some 2), RTok.opt [RTok.cls1 q3], RTok.ws, RTok.lit ")"],
     [RTok.lit "@Controller", RTok.ws, RTok.lit "(", RTok.ws, RTok.cls1 q3,
      RTok.classPlus q3 (some 1), RTok.cls1 q3, RTok.ws, RTok.lit ")"]]
  | "nextjs" =>
    [[RTok.lit "export", RTok.ws1, RTok.opt [RTok.lit "async", RTok.ws1], RTok.lit "function",
      RTok.ws1, RTok.alt verbs7U (some 1)],
     [RTok.lit "export", RTok.ws1, RTok.lit "const", RTok.ws1, RTok.alt verbs7U (some 1),
      RTok.ws, RTok.lit "="]]
  | "flask" =>
    [[RTok.lit "@", RTok.alt ["app", "blueprint", "bp"] none, RTok.lit ".route", RTok.ws,
      RTok.lit "(", RTok.ws, RTok.cls1 q3, RTok.classPlus q3 (some 1), RTok.cls1 q3,
      RTok.opt [RTok.ws, RTok.lit ",", RTok.ws, RTok.lit "methods", RTok.ws, RTok.lit "=",
        RTok.ws, RTok.lit "[", RTok.classPlus [']'] (some 2), RTok.lit "]"]],
     [RTok.lit "@", RTok.alt ["app", "blueprint", "bp"] none, RTok.lit ".",
      RTok.alt verbs5 (some 1), RTok.ws, RTok.lit "(", RTok.ws, RTok.cls1 q3,
      RTok.classPlus q3 (some 2), RTok.cls1 q3]]
  | "fastapi" =>
    [[RTok.lit "@", RTok.alt ["app", "router"] none, RTok.lit ".", RTok.alt verbs7 (some 1),
      RTok.ws, RTok.lit "(", RTok.ws, RTok.cls1 q3, RTok.classPlus q3 (some 2), RTok.cls1 q3]]
  | "django" =>
    [[RTok.lit "path", RTok.ws, RTok.lit "(", RTok.ws, RTok.cls1 q3,
      RTok.classPlus q3 (some 1), RTok.cls1 q3, RTok.ws, RTok.lit ","],
     [RTok.lit "re_path", RTok.ws, RTok.lit "(", RTok.ws, RTok.opt [RTok.lit "r"],
      RTok.cls1 q3, RTok.classPlus q3 (some 1), RTok.cls1 q3, RTok.ws, RTok.lit ","]]
  | "go" =>
    [[RTok.lit ".", RTok.alt verbs7U (some 1), RTok.ws, RTok.lit "(", RTok.ws, RTok.cls1 q2,
      RTok.classPlus q2 (some 2), RTok.cls1 q2],
     [RTok.lit "HandleFunc", RTok.ws, RTok.lit "(", RTok.ws, RTok.cls1 q2,
      RTok.classPlus q2 (some 1), RTok.cls1 q2],
     [RTok.lit "Handle", RTok.ws, RTok.lit "(", RTok.ws, RTok.cls1 q2,
      RTok.classPlus q2 (some 1), RTok.cls1 q2],
     [RTok.lit "r.Route", RTok.ws, RTok.lit "(", RTok.ws, RTok.cls1 q2,
      RTok.classPlus q2 (some 1), RTok.cls1 q2]]
  | "spring" =>
    [[RTok.lit "@",
      RTok.alt ["GetMapping", "PostMapping", "PutMapping", "PatchMapping", "DeleteMapping"] (some 1),
      RTok.ws, RTok.lit "(", RTok.ws, RTok.opt [RTok.lit "value", RTok.ws, RTok.lit "=", RTok.ws],
      RTok.opt [RTok.cls1 q2], RTok.opt [RTok.classPlus (q2 ++ [')']) (some 2)],
      RTok.opt [RTok.cls1 q2], RTok.ws, RTok.lit ")"],
     [RTok.lit "@RequestMapping", RTok.ws, RTok.lit "(", RTok.ws,
      RTok.opt [RTok.lit "value", RTok.ws, RTok.lit "=", RTok.ws], RTok.cls1 q2,
      RTok.classPlus q2 (some 1), RTok.cls1 q2,
      RTok.opt [RTok.ws, RTok.lit ",", RTok.ws, RTok.lit "method", RTok.ws, RTok.lit "=",
        RTok.ws, RTok.lit "RequestMethod.", RTok.alt verbs5U (some 2)]]]
  | "rust" =>
    [[RTok.lit "#[", RTok.alt verbs5 none, RTok.ws, RTok.lit "(", RTok.ws, RTok.cls1 q2,
      RTok.classPlus q2 (some 1), RTok.cls1 q2, RTok.ws, RTok.lit ")]"],
     [RTok.lit ".route", RTok.ws, RTok.lit "(", RTok.ws, RTok.cls1 q2,
      RTok.classPlus q2 (some 1), RTok.cls1 q2, RTok.ws, RTok.lit ",", RTok.ws,
      RTok.alt verbs5 none, RTok.ws, RTok.lit "("]]
  | "laravel" =>
    [[RTok.lit "Route::", RTok.alt verbs6 (some 1), RTok.ws, RTok.lit "(", RTok.ws,
      RTok.cls1 q2, RTok.classPlus q2 (some 2), RTok.cls1 q2],
     [RTok.lit "->", RTok.alt verbs5 none, RTok.ws, RTok.lit "(", RTok.ws, RTok.cls1 q2,
      RTok.classPlus q2 (some 1), RTok.cls1 q2]]
  | "koa" =>
    [[RTok.lit "router.", RTok.alt verbs7 (some 1), RTok.ws, RTok.lit "(", RTok.ws,
      RTok.cls1 q3, RTok.classPlus q3 (some 2), RTok.cls1 q3]]
  | _ => []

/-- `detectFrameworks`: applicable framework families for a file,
determined by extension and content-substring signatures, in the push
order of the source. -/
def detectFrameworks (content ext : String) : List String :=
  let js := [".js", ".ts", ".jsx", ".tsx"].contains ext
  (if js && (includesS content "express" || includesS content "require(\x27express\x27)" ||
      includesS content "from \x22express\x22") then ["express"] else [])
  ++ (if js && (includesS content "fastify" ||
      includesS content "require(\x27fastify\x27)") then ["fastify"] else [])
  ++ (if js && (includesS content "hono" ||
      includesS content "from \x27hono\x27") then ["hono"] else [])
  ++ (if js && (includesS content "@nestjs" || includesS content "@Controller" ||
      includesS content "@Get") then ["nestjs"] else [])
  ++ (if js && (includesS content "export function GET" ||
      includesS content "export const GET" ||
      includesS content "export async function GET") then ["nextjs"] else [])
  ++ (if js && (includesS content "koa-router" ||
      includesS content "@koa/router") then ["koa"] else [])
  ++ (if ext = ".py" && (includesS content "flask" || includesS content "@app.route" ||
      includesS content "@bp.route") then ["flask"] else [])
  ++ (if ext = ".py" && (includesS content "fastapi" || includesS content "FastAPI" ||
      includesS content "@app.get") then ["fastapi"] else [])
  ++ (if ext = ".py" && (includesS content "django" || includesS content "urlpatterns" ||
      includesS content "path(") then ["django"] else [])
  ++ (if ext = ".go" then ["go"] else [])
  ++ (if ext = ".java" && (includesS content "@GetMapping" ||
      includesS content "@PostMapping" || includesS content "@RequestMapping" ||
      includesS content "springframework") then ["spring"] else [])
  ++ (if ext = ".rs" then ["rust"] else [])
  ++ (if ext = ".php" && (includesS content "Route::" ||
      includesS content "Laravel") then ["laravel"] else [])

/-- `path.extname`: the suffix of the basename from its last dot, empty
when there is no dot or the dot is the basename's first character. -/
def extname (p : String) : String :=
  let base := ((splitOnCh '/' p.data).getLast?).getD []
  let rev := base.reverse
  let run := rev.takeWhile (fun c => !(c = '.' : Bool))
  match rev.drop run.length with
  | [] => ""
  | _ :: rest => if rest.isEmpty then "" else String.mk ('.' :: run.reverse)

/-- Drop a literal suffix when present (the anchored
`replace(/suf$/, '')` calls of `extractNextJsPath`). -/
def stripSuffixS (s suf : String) : String :=
  if suf.data.isSuffixOf s.data then String.mk (s.data.take (s.data.length - suf.data.length))
  else s

/-- The search pattern `(?:pages|app)(\/api\/[^.]+)` of
`extractNextJsPath` (the captured group is reconstructed as
`"/api/" ++` the run). -/
def nextPathPat : List RTok :=
  [RTok.alt ["pages", "app"] none, RTok.lit "/api/", RTok.classPlus ['.'] (some 1)]

/-- `extractNextJsPath`: derive the API route from the file's location,
dropping a trailing `/route` and `/index`. -/
def extractNextJsPath (filePath : String) : String :=
  match execAll nextPathPat filePath.data with
  | m :: _ =>
    let routePath := "/api/" ++ String.mk ((getCap m 1).getD [])
    let r := stripSuffixS (stripSuffixS routePath "/route") "/index"
    if r = "" then "/api" else r
  | [] => "/api"

/-- First match of `/get|post|put|patch|delete/i` inside a string (the
verb recovery of the Rust extractor), as the actual matched text. -/
def firstVerbIn : List Char → Option (List Char)
  | [] => none
  | c :: t =>
    match firstAltWord verbs5 (c :: t) with
    | some txt => some txt
    | none => firstVerbIn t

/-- The trailing path cleanup `replace(/^['"`]|['"`]$/g, '')`: one
leading and one trailing quote character removed. -/
def stripEdgeQuote (s : List Char) : List Char :=
  let s1 :=
    match s with
    | c :: t => if q3.contains c then t else s
    | [] => []
  match s1.getLast? with
  | some c => if q3.contains c then s1.dropLast else s1
  | none => s1

/-- `extractEndpointFromMatch`: framework-specific recovery of the
method and route path from a regex match, followed by the shared path
cleanup and parameter extraction (`line` is filled in by the caller). -/
def extractEndpointFromMatch (m : RMatch) (framework filePath : String) :
    Option DiscoveredEndpoint :=
  let mr : Option (List Char × List Char) :=
    if framework = "express" ∨ framework = "fastify" ∨ framework = "hono" ∨
       framework = "koa" ∨ framework = "fastapi" then
      some (jsOrStr ((getCap m 1).map upS) "GET".data, jsOrStr (getCap m 2) "/".data)
    else if framework = "nestjs" then
      let decorator := (getCap m 1).map downS
      if decorator = some "controller".data then none
      else some (jsOrStr (decorator.map upS) "GET".data, jsOrStr (getCap m 2) "/".data)
    else if framework = "nextjs" then
      some (jsOrStr ((getCap m 1).map upS) "GET".data, (extractNextJsPath filePath).data)
    else if framework = "flask" then
      let mtd :=
        if jsTruthyCap (getCap m 2) then
          let methods :=
            (splitOnCh ',' (((getCap m 2).getD []).filter
              (fun c => !(c = '\x27' : Bool) && !(c = '\x22' : Bool)))).map jsTrim
          jsOrStr (methods.head?.map upS) "GET".data
        else jsOrStr ((getCap m 1).map upS) "GET".data
      some (mtd, jsOrStr (getCap m 1) (jsOrStr (getCap m 2) "/".data))
    else if framework = "django" then
      some ("GET".data, jsOrStr (getCap m 1) "/".data)
    else if framework = "go" then
      let m1 := (getCap m 1).getD []
      if jsTruthyCap (getCap m 1) && !(m1.head? = some '/' : Bool) then
        some (upS m1, jsOrStr (getCap m 2) "/".data)
      else some ("GET".data, jsOrStr (getCap m 1) "/".data)
    else if framework = "spring" then
      let fallback := jsOrStr ((getCap m 3).map upS) "GET".data
      let mtd :=
        match (getCap m 1).map downS with
        | some mp =>
          if includesL mp "get".data then "GET".data
          else if includesL mp "post".data then "POST".data
          else if includesL mp "put".data then "PUT".data
          else if includesL mp "patch".data then "PATCH".data
          else if includesL mp "delete".data then "DELETE".data
          else fallback
        | none => fallback
      some (mtd, jsOrStr (getCap m 2) "/".data)
    else if framework = "rust" then
      some (jsOrStr ((firstVerbIn m.text).map upS) "GET".data, jsOrStr (getCap m 1) "/".data)
    else if framework = "laravel" then
      some (jsOrStr ((getCap m 1).map upS) "GET".data, jsOrStr (getCap m 2) "/".data)
    else none
  match mr with
  | none => none
  | some (mtd, rp0) =>
    let rp1 := jsTrim (stripEdgeQuote rp0)
    let routePath := if rp1.head? = some '/' then rp1 else '/' :: rp1
    some { method := String.mk mtd, path := String.mk routePath, file := filePath,
           line := 0, framework := framework,
           params := extractPathParams (String.mk routePath) }

/-- The line-number-from-offset loop of `parseFileForEndpoints`:
accumulate line lengths plus one for the newline until the running total
exceeds the match offset (0 when the loop never breaks, matching the
initialisation of the source). -/
def lineOfAux (idx : Nat) : List (List Char) → Nat → Nat → Nat
  | [], _, _ => 0
  | l :: rest, i, acc =>
    if acc + l.length + 1 > idx then i
    else lineOfAux idx rest (i + 1) (acc + l.length + 1)

/-- `parseFileForEndpoints`: detect the applicable framework families,
run every pattern of each family over the whole content and convert each
match, attaching the resolved line number. -/
def parseFileForEndpoints (content filePath : String) : List DiscoveredEndpoint :=
  let lines := splitOnCh '\n' content.data
  let ext := String.mk (downS (extname filePath).data)
  (detectFrameworks content ext).flatMap (fun fw =>
    (patterns fw).flatMap (fun pat =>
      (execAll pat content.data).filterMap (fun m =>
        (extractEndpointFromMatch m fw filePath).map
          (fun e => { e with line := lineOfAux m.index lines 0 0 }))))

/-- `discoverEndpoints` specialised to a workspace holding the single
in-memory file `(filePath, content)` and no Next.js API directories:
parse the file and deduplicate. -/
def discoverSingleFile (content filePath : String) : List DiscoveredEndpoint :=
  deduplicateEndpoints (parseFileForEndpoints content filePath)

/-- Loop invariant of the fold inside `findEndpointAtPosition`: the
state correctly summarises the processed prefix — either nothing at or
before the cursor was seen, or the state holds a first endpoint
attaining the maximal line at or before the cursor together with its
distance. -/
def FindInv (cursor : Nat) (l : List DiscoveredEndpoint) :
    Option DiscoveredEndpoint × Option Nat → Prop
  | (none, none) => ∀ e ∈ l, ¬ e.line ≤ cursor
  | (some e, some d) =>
    e ∈ l ∧ e.line ≤ cursor ∧ d = cursor - e.line ∧
      ∀ x ∈ l, x.line ≤ cursor → x.line ≤ e.line
  | _ => False

/-- A Python file using Flask's inline-verb routing shortcut (the
`flask` marker makes the flask family applicable, `@app.get` also
triggers the fastapi family). -/
def flaskFixture : String :=
  "from flask import Flask\n@app.get(\x27/users\x27)\ndef u(): pass"

/-- A parsed import payload whose `name` and `variables` fields are both
present, with an empty-string name. -/
def importBadPayload : Json :=
  Json.obj [("name", Json.str ""), ("variables", Json.obj [])]

/-- Endpoint fixture: distinct `(method, path, file)` triples whose
dedup keys collide (`GET:/a:b:c` both times). -/
def epColl1 : DiscoveredEndpoint :=
  { method := "GET", path := "/a", file := "b:c", line := 0, framework := "express",
    params := [] }

/-- Second endpoint of the colliding pair. -/
def epColl2 : DiscoveredEndpoint :=
  { method := "GET", path := "/a:b", file := "c", line := 0, framework := "express",
    params := [] }

/-- Endpoint fixture at line 5 (spec §8 example). -/
def epLine5 : DiscoveredEndpoint :=
  { method := "GET", path := "/a", file := "f", line := 5, framework := "express",
    params := [] }

/-- Endpoint fixture at line 20 (spec §8 example). -/
def epLine20 : DiscoveredEndpoint :=
  { method := "POST", path := "/b", file := "f", line := 20, framework := "express",
    params := [] }

/-- An active environment fixture. -/
def envA : Environment :=
  { id := "e1", name := "Default", vars := [("BASE_URL", "http://x"), ("K", "env")],
    isActive := true, createdAt := 0, updatedAt := 0 }

/-- An inactive environment fixture. -/
def envB : Environment :=
  { id := "e2", name := "Second", vars := [], isActive := false, createdAt := 0,
    updatedAt := 0 }

/-- A patch that only sets the active flag. -/
def activatePatch : EnvUpdates := { isActive := some true }

lemma keepFirstAux_fuel {α β : Type} [DecidableEq β] (f : α → β) :
    ∀ (n m : Nat) (l : List α), l.length ≤ n → l.length ≤ m →
      keepFirstAux f n l = keepFirstAux f m l := by
  intro n
  induction n with
  | zero =>
    intro m l h1 _
    have : l = [] := List.eq_nil_of_length_eq_zero (Nat.le_zero.mp h1)
    subst this
    cases m <;> rfl
  | succ n ih =>
    intro m l h1 h2
    cases l with
    | nil => cases m <;> rfl
    | cons x t =>
      cases m with
      | zero => exact absurd h2 (by simp)
      | succ m =>
        simp only [keepFirstAux]
        congr 1
        exact ih m _
          (Nat.le_trans (List.length_filter_le _ _) (Nat.le_of_succ_le_succ h1))
          (Nat.le_trans (List.length_filter_le _ _) (Nat.le_of_succ_le_succ h2))

lemma dedupGo_eq_keepFirst :
    ∀ (l : List DiscoveredEndpoint) (seen : List String) (n : Nat), l.length ≤ n →
      dedupGo seen l =
        keepFirstAux endpointKey n
          (l.filter (fun e => !(seen.contains (endpointKey e)))) := by
  intro l
  induction l with
  | nil => intro seen n _; cases n <;> rfl
  | cons e t ih =>
    intro seen n hn
    by_cases hc : seen.contains (endpointKey e) = true
    · simp only [dedupGo, hc, if_true, List.filter_cons, Bool.not_true,
        Bool.false_eq_true, if_false]
      exact ih seen n (Nat.le_trans (Nat.le_succ _) hn)
    · simp only [Bool.not_eq_true] at hc
      simp only [dedupGo, hc, Bool.false_eq_true, if_false, List.filter_cons,
        Bool.not_false, if_true]
      cases n with
      | zero => exact absurd hn (by simp)
      | succ n =>
        simp only [keepFirstAux]
        congr 1
        rw [ih (endpointKey e :: seen) n (Nat.le_of_succ_le_succ hn), List.filter_filter]
        congr 1
        apply List.filter_congr
        intro a _
        simp [List.contains_cons, Bool.not_or, Bool.and_comm, eq_comm]

lemma dedupGo_keys_unseen :
    ∀ (l : List DiscoveredEndpoint) (seen : List String) (e : DiscoveredEndpoint),
      e ∈ dedupGo seen l → seen.contains (endpointKey e) = false := by
  intro l
  induction l with
  | nil => intro seen e h; simp [dedupGo] at h
  | cons x t ih =>
    intro seen e h
    by_cases hc : seen.contains (endpointKey x) = true
    · simp only [dedupGo, hc, if_true] at h
      exact ih seen e h
    · simp only [Bool.not_eq_true] at hc
      simp only [dedupGo, hc, Bool.false_eq_true, if_false, List.mem_cons] at h
      rcases h with h | h
      · exact h ▸ hc
      · have := ih _ e h
        simp only [List.contains_cons, Bool.or_eq_false_iff] at this
        exact this.2

lemma dedupGo_pairwise_keys :
    ∀ (l : List DiscoveredEndpoint) (seen : List String),
      (dedupGo seen l).Pairwise (fun a b => endpointKey a ≠ endpointKey b) := by
  intro l
  induction l with
  | nil => intro seen; simp [dedupGo]
  | cons x t ih =>
    intro seen
    by_cases hc : seen.contains (endpointKey x) = true
    · simp only [dedupGo, hc, if_true]; exact ih seen
    · simp only [Bool.not_eq_true] at hc
      simp only [dedupGo, hc, Bool.false_eq_true, if_false]
      refine List.Pairwise.cons ?_ (ih _)
      intro b hb hkey
      have := dedupGo_keys_unseen t (endpointKey x :: seen) b hb
      simp only [List.contains_cons, Bool.or_eq_false_iff] at this
      have hbx : (endpointKey b == endpointKey x) = false := by
        simpa using this.1
      rw [hkey] at hbx
      simp at hbx

/-- C3 (amended): `deduplicateEndpoints` keeps, for each key string
`method:path:file`, exactly the first endpoint with that key, in
first-seen order; consequently the keys — and hence the
`(method, path, file)` triples — of the result are pairwise distinct. -/
theorem dedup_first_per_key (l : List DiscoveredEndpoint) :
    deduplicateEndpoints l = keepFirstBy endpointKey l ∧
    (deduplicateEndpoints l).Pairwise (fun a b => endpointKey a ≠ endpointKey b) ∧
    (deduplicateEndpoints l).Pairwise (fun a b => endpointTriple a ≠ endpointTriple b) := by
  refine ⟨?_, dedupGo_pairwise_keys l [], ?_⟩
  · have h := dedupGo_eq_keepFirst l [] l.length (Nat.le_refl _)
    have hf : l.filter (fun e => !(([] : List String).contains (endpointKey e))) = l := by
      apply List.filter_eq_self.mpr
      intro a _
      simp [List.contains]
    rw [deduplicateEndpoints, h, hf, keepFirstBy]
  · apply (dedupGo_pairwise_keys l []).imp
    intro a b hk ht
    apply hk
    have h1 : a.method = b.method := congrArg (fun t => t.1) ht
    have h2 : a.path = b.path := congrArg (fun t => t.2.1) ht
    have h3 : a.file = b.file := congrArg (fun t => t.2.2) ht
    simp [endpointKey, h1, h2, h3]

/-- C3 (counterexample): two endpoints with distinct
`(method, path, file)` triples but the same dedup key
(`GET:/a:b:c`); the code's dedup drops the second although the claim's
first-per-triple reading keeps both. -/
theorem dedup_triple_counterexample :
    deduplicateEndpoints [epColl1, epColl2] = [epColl1] ∧
    keepFirstBy endpointTriple [epColl1, epColl2] = [epColl1, epColl2] ∧
    endpointTriple epColl1 ≠ endpointTriple epColl2 ∧
    deduplicateEndpoints [epColl1, epColl2] ≠ keepFirstBy endpointTriple [epColl1, epColl2] := by
  refine ⟨by decide, by decide, by decide, by decide⟩

lemma dedup_eq_keepFirstBy (l : List DiscoveredEndpoint) :
    deduplicateEndpoints l = keepFirstBy endpointKey l := by
  have h := dedupGo_eq_keepFirst l [] l.length (Nat.le_refl _)
  have hf : l.filter (fun e => !(([] : List String).contains (endpointKey e))) = l := by
    apply List.filter_eq_self.mpr
    intro a _
    simp [List.contains]
  rw [deduplicateEndpoints, h, hf, keepFirstBy]

lemma keepFirst_self_append :
    ∀ s : List DiscoveredEndpoint,
      s.Pairwise (fun a b => endpointKey a ≠ endpointKey b) →
      keepFirstBy endpointKey (s ++ s) = s := by
  intro s
  induction s with
  | nil => intro _; rfl
  | cons x t ih =>
    intro hp
    rcases List.pairwise_cons.mp hp with ⟨hx, hpt⟩
    have hta : t.filter (fun y => !(endpointKey y = endpointKey x : Bool)) = t := by
      apply List.filter_eq_self.mpr
      intro a ha
      simpa using fun heq => hx a ha heq.symm
    have hfilter :
        (t ++ x :: t).filter (fun y => !(endpointKey y = endpointKey x : Bool)) = t ++ t := by
      rw [List.filter_append, List.filter_cons]
      simp only [decide_eq_true_eq, hta]
      simp [hta]
    have hlen : (x :: t ++ (x :: t)).length = 2 * t.length + 2 := by
      simp [List.length_append]; omega
    calc keepFirstBy endpointKey (x :: t ++ (x :: t))
        = keepFirstAux endpointKey (2 * t.length + 2) (x :: (t ++ x :: t)) := by
          rw [keepFirstBy, hlen]; rfl
      _ = x :: keepFirstAux endpointKey (2 * t.length + 1)
            ((t ++ x :: t).filter (fun y => !(endpointKey y = endpointKey x : Bool))) := rfl
      _ = x :: keepFirstAux endpointKey (2 * t.length + 1) (t ++ t) := by rw [hfilter]
      _ = x :: keepFirstAux endpointKey (t ++ t).length (t ++ t) := by
          rw [keepFirstAux_fuel endpointKey (2 * t.length + 1) (t ++ t).length (t ++ t)
            (by simp [List.length_append]; omega) (Nat.le_refl _)]
      _ = x :: keepFirstBy endpointKey (t ++ t) := rfl
      _ = x :: t := by rw [ih hpt]

/-- C7: deduplication is idempotent under self-concatenation — for an
already-deduplicated list `s`, deduplicating `s ++ s` returns exactly
`s` (same elements, same order). -/
theorem dedup_idempotent_self_append (s : List DiscoveredEndpoint)
    (h : deduplicateEndpoints s = s) :
    deduplicateEndpoints (s ++ s) = s := by
  have hp : s.Pairwise (fun a b => endpointKey a ≠ endpointKey b) :=
    h ▸ dedupGo_pairwise_keys s []
  rw [dedup_eq_keepFirstBy, keepFirst_self_append s hp]

/-- C7 witness: a concrete already-deduplicated list. -/
theorem dedup_idempotent_self_append_witness :
    deduplicateEndpoints [epLine5] = [epLine5] ∧
    deduplicateEndpoints ([epLine5] ++ [epLine5]) = [epLine5] :=
  ⟨by decide, dedup_idempotent_self_append [epLine5] (by decide)⟩

lemma findStep_inv (cursor : Nat) (acc : List DiscoveredEndpoint)
    (st : Option DiscoveredEndpoint × Option Nat) (x : DiscoveredEndpoint)
    (h : FindInv cursor acc st) :
    FindInv cursor (acc ++ [x]) (findStep cursor st x) := by
  rcases st with ⟨oe, od⟩
  by_cases hx : x.line ≤ cursor
  · rcases oe with _ | e <;> rcases od with _ | d
    · simp only [findStep, hx, if_true]
      refine ⟨List.mem_append_right _ (List.mem_singleton_self x), hx, rfl, ?_⟩
      intro y hy hyl
      rcases List.mem_append.mp hy with hy | hy
      · exact absurd hyl (h y hy)
      · rw [List.mem_singleton.mp hy]
    · exact absurd h (by simp [FindInv])
    · exact absurd h (by simp [FindInv])
    · rcases h with ⟨he, hel, hd, hmax⟩
      simp only [findStep, hx, if_true]
      by_cases hlt : cursor - x.line < d
      · simp only [hlt, if_true]
        have hexl : e.line < x.line := by omega
        refine ⟨List.mem_append_right _ (List.mem_singleton_self x), hx, rfl, ?_⟩
        intro y hy hyl
        rcases List.mem_append.mp hy with hy | hy
        · exact Nat.le_trans (hmax y hy hyl) (Nat.le_of_lt hexl)
        · rw [List.mem_singleton.mp hy]
      · simp only [hlt, if_false]
        have hxe : x.line ≤ e.line := by omega
        refine ⟨List.mem_append_left _ he, hel, hd, ?_⟩
        intro y hy hyl
        rcases List.mem_append.mp hy with hy | hy
        · exact hmax y hy hyl
        · rw [List.mem_singleton.mp hy]; exact hxe
  · simp only [findStep, hx, if_false]
    rcases oe with _ | e <;> rcases od with _ | d
    · intro y hy
      rcases List.mem_append.mp hy with hy | hy
      · exact h y hy
      · rw [List.mem_singleton.mp hy]; exact hx
    · exact absurd h (by simp [FindInv])
    · exact absurd h (by simp [FindInv])
    · rcases h with ⟨he, hel, hd, hmax⟩
      refine ⟨List.mem_append_left _ he, hel, hd, ?_⟩
      intro y hy hyl
      rcases List.mem_append.mp hy with hy | hy
      · exact hmax y hy hyl
      · rw [List.mem_singleton.mp hy] at hyl; exact absurd hyl hx

lemma findFold_inv (cursor : Nat) :
    ∀ (l acc : List DiscoveredEndpoint) (st : Option DiscoveredEndpoint × Option Nat),
      FindInv cursor acc st →
      FindInv cursor (acc ++ l) (l.foldl (findStep cursor) st) := by
  intro l
  induction l with
  | nil => intro acc st h; simpa using h
  | cons x t ih =>
    intro acc st h
    have := ih (acc ++ [x]) (findStep cursor st x) (findStep_inv cursor acc st x h)
    simpa [List.append_assoc] using this

/-- C5: the cursor lookup returns an endpoint of the list attaining the
largest line at or before the cursor, provided that endpoint lies within
10 lines of the cursor, and returns none exactly when no endpoint at or
before the cursor lies within the 10-line window (endpoints after the
cursor are never returned, however close). -/
theorem findEndpointAtPosition_spec (endpoints : List DiscoveredEndpoint) (cursor : Nat) :
    (∀ e, findEndpointAtPosition endpoints cursor = some e →
      e ∈ endpoints ∧ e.line ≤ cursor ∧ cursor - e.line ≤ 10 ∧
        ∀ x ∈ endpoints, x.line ≤ cursor → x.line ≤ e.line) ∧
    (findEndpointAtPosition endpoints cursor = none →
      ∀ x ∈ endpoints, x.line ≤ cursor → ¬ (cursor - x.line ≤ 10)) := by
  have hinv := findFold_inv cursor endpoints [] (none, none) (by intro e he; simp at he)
  simp only [List.nil_append] at hinv
  rcases hfold : endpoints.foldl (findStep cursor) (none, none) with ⟨oe, od⟩
  rw [hfold] at hinv
  rcases oe with _ | e <;> rcases od with _ | d
  · constructor
    · intro e he
      rw [findEndpointAtPosition, hfold] at he
      simp at he
    · intro _ x hx hxl
      exact absurd hxl (hinv x hx)
  · exact absurd hinv (by simp [FindInv])
  · exact absurd hinv (by simp [FindInv])
  · rcases hinv with ⟨he, hel, hd, hmax⟩
    constructor
    · intro e' he'
      rw [findEndpointAtPosition, hfold] at he'
      by_cases hd10 : d ≤ 10
      · simp only [hd10, if_true, Option.some.injEq] at he'
        subst he'
        exact ⟨he, hel, by omega, hmax⟩
      · simp [hd10] at he'
    · intro hn x hx hxl hdist
      rw [findEndpointAtPosition, hfold] at hn
      by_cases hd10 : d ≤ 10
      · simp [hd10] at hn
      · have := hmax x hx hxl
        omega

/-- C5 witness: the §8 example — endpoints at lines 5 and 20, cursor 8
resolves to the line-5 endpoint, cursor 35 resolves to none. -/
theorem findEndpointAtPosition_spec_witness :
    (epLine5 ∈ [epLine5, epLine20] ∧ epLine5.line ≤ 8 ∧ 8 - epLine5.line ≤ 10 ∧
      ∀ x ∈ [epLine5, epLine20], x.line ≤ 8 → x.line ≤ epLine5.line) ∧
    (∀ x ∈ [epLine5, epLine20], x.line ≤ 35 → ¬ (35 - x.line ≤ 10)) :=
  ⟨(findEndpointAtPosition_spec [epLine5, epLine20] 8).1 epLine5 (by decide),
   (findEndpointAtPosition_spec [epLine5, epLine20] 35).2 (by decide)⟩



lemma lookupVar_map_ne (t : List (String × String)) (k v k' : String) (h : k' ≠ k) :
    lookupVar (t.map (fun p => if p.1 = k then (k, v) else p)) k' = lookupVar t k' := by
  have h2 : ¬ k = k' := fun hk => h hk.symm
  induction t with
  | nil => rfl
  | cons p t ih =>
    by_cases hp : p.1 = k
    · simp [List.map_cons, hp, lookupVar, h2, ih]
    · simp [List.map_cons, hp, lookupVar, ih]

lemma lookupVar_mem_some (t : List (String × String)) (k v : String)
    (ht : t.any (fun q => (q.1 = k : Bool)) = true) :
    lookupVar (t.map (fun p => if p.1 = k then (k, v) else p)) k = some v := by
  induction t with
  | nil => simp at ht
  | cons p t ih =>
    by_cases hp : p.1 = k
    · simp [List.map_cons, hp, lookupVar]
    · simp only [List.any_cons, Bool.or_eq_true] at ht
      rcases ht with h | h
      · exact absurd (by simpa using h) hp
      · simp [List.map_cons, hp, lookupVar, ih h]

lemma lookupVar_upsert (m : List (String × String)) (k v k' : String) :
    lookupVar (upsertVar m k v) k' = if k' = k then some v else lookupVar m k' := by
  induction m with
  | nil =>
    by_cases h : k' = k
    · subst h; simp [upsertVar, lookupVar]
    · have h2 : ¬ k = k' := fun hk => h hk.symm
      simp [upsertVar, lookupVar, h, h2]
  | cons p t ih =>
    by_cases hany : (p :: t).any (fun q => (q.1 = k : Bool)) = true
    · rw [upsertVar, if_pos hany]
      by_cases hk' : k' = k
      · subst hk'
        rw [if_pos rfl]
        by_cases hp : p.1 = k'
        · simp [List.map_cons, hp, lookupVar]
        · simp only [List.any_cons, Bool.or_eq_true] at hany
          rcases hany with h | h
          · exact absurd (by simpa using h) hp
          · simp [List.map_cons, hp, lookupVar, lookupVar_mem_some t k' v h]
      · have h1 : ¬ k = k' := fun hk => hk' hk.symm
        by_cases hp : p.1 = k
        · simp [List.map_cons, hp, lookupVar, h1, hk', lookupVar_map_ne t k v k' hk']
        · simp [List.map_cons, hp, lookupVar, hk', lookupVar_map_ne t k v k' hk']
    · have hp : ¬ p.1 = k := by
        intro h
        exact hany (by simp [List.any_cons, h])
      have ht : ¬ t.any (fun q => (q.1 = k : Bool)) = true := by
        intro h
        exact hany (by simp [List.any_cons, h])
      have htu : upsertVar t k v = t ++ [(k, v)] := by
        rw [upsertVar, if_neg ht]
      rw [upsertVar, if_neg hany, List.cons_append, ← htu]
      by_cases hk' : p.1 = k'
      · have h1 : ¬ k' = k := fun h => hp (by rw [hk', h])
        simp [lookupVar, hk', h1]
      · simp only [lookupVar, if_neg hk', ih]

lemma lookupVar_none_of_not_mem (b : List (String × String)) (k : String)
    (h : k ∉ b.map Prod.fst) : lookupVar b k = none := by
  induction b with
  | nil => rfl
  | cons p t ih =>
    simp only [List.map_cons, List.mem_cons, not_or] at h
    rw [lookupVar, if_neg (fun hp => h.1 hp.symm)]
    exact ih h.2

lemma lookupVar_merge (b : List (String × String)) :
    ∀ (a : List (String × String)) (k : String), (b.map Prod.fst).Nodup →
      lookupVar (mergeRecords a b) k =
        ((lookupVar b k).orElse (fun _ => lookupVar a k)) := by
  induction b with
  | nil =>
    intro a k _
    simp [mergeRecords, lookupVar, Option.orElse]
  | cons p t ih =>
    intro a k hnd
    rcases List.nodup_cons.mp hnd with ⟨hp, hnd'⟩
    have hm : mergeRecords a (p :: t) = mergeRecords (upsertVar a p.1 p.2) t := by
      simp [mergeRecords]
    rw [hm, ih (upsertVar a p.1 p.2) k hnd', lookupVar_upsert]
    by_cases hk : k = p.1
    · have hnone : lookupVar t k = none :=
        lookupVar_none_of_not_mem t k (by rw [hk]; exact hp)
      rw [hnone, if_pos hk, lookupVar, if_pos hk.symm]
      simp [Option.orElse]
    · rw [if_neg hk, lookupVar, if_neg (fun h => hk h.symm)]

lemma scanVars_congr (r1 r2 : String → Option String) (h : ∀ x, r1 x = r2 x) :
    ∀ (n : Nat) (s : List Char), scanVars r1 n s = scanVars r2 n s := by
  intro n
  induction n with
  | zero => intro s; rfl
  | succ n ih =>
    intro s
    cases s with
    | nil => rfl
    | cons c t =>
      simp only [scanVars]
      cases hm : matchVarTok (c :: t) with
      | none => dsimp only; rw [ih]
      | some x =>
        rcases x with ⟨mtext, raw, rest⟩
        dsimp only
        rw [h (String.mk raw), ih]

/-- C2: `interpolate` satisfies the documented contract — every
`{{name}}`/`${name}` placeholder is resolved with the trimmed name,
override bindings taking precedence over the active environment's
variables, and an unresolved placeholder is left unchanged (override
maps are `Record` objects, so their keys are assumed distinct). -/
theorem interpolate_contract (envs : List Environment) (text : String)
    (additionalVars : List (String × String))
    (h : (additionalVars.map Prod.fst).Nodup) :
    interpolate envs text additionalVars = interpolateContract envs text additionalVars := by
  rw [interpolate, interpolateContract]
  cases hfind : envs.find? (fun e => e.isActive) with
  | none =>
    simp only [hfind]
    congr 1
    apply scanVars_congr
    intro x
    exact lookupVar_merge additionalVars [] (String.mk (jsTrim x.data)) h
  | some e =>
    simp only [hfind]
    congr 1
    apply scanVars_congr
    intro x
    exact lookupVar_merge additionalVars e.vars (String.mk (jsTrim x.data)) h

/-- C2 witness: a placeholder resolved from the active environment, an
unresolved placeholder left unchanged, and a key bound in both sides
taking the override's value. -/
theorem interpolate_contract_witness :
    ([("K", "over")].map (Prod.fst : String × String → String)).Nodup ∧
    interpolate [envA] "\x7b\x7bBASE_URL\x7d\x7d/api \x7b\x7bFOO\x7d\x7d $\x7bK\x7d" [("K", "over")] =
      interpolateContract [envA] "\x7b\x7bBASE_URL\x7d\x7d/api \x7b\x7bFOO\x7d\x7d $\x7bK\x7d" [("K", "over")] ∧
    interpolate [envA] "\x7b\x7bBASE_URL\x7d\x7d/api \x7b\x7bFOO\x7d\x7d $\x7bK\x7d" [("K", "over")] =
      "http://x/api \x7b\x7bFOO\x7d\x7d over" :=
  ⟨by decide,
   interpolate_contract [envA] "\x7b\x7bBASE_URL\x7d\x7d/api \x7b\x7bFOO\x7d\x7d $\x7bK\x7d"
     [("K", "over")] (by decide),
   by decide⟩

/-- C10: `setActiveEnvironment` on an id matching no stored environment
returns `false` and leaves the stored list — including every `isActive`
flag — entirely unchanged (no update is persisted). -/
theorem setActiveEnvironment_unknown_id (id : String) (l : List Environment)
    (h : ∀ e ∈ l, e.id ≠ id) :
    setActiveEnvironment id l = (false, l) := by
  have hany : l.any (fun e => (e.id = id : Bool)) = false := by
    rw [List.any_eq_false]
    intro e he
    simpa using h e he
  rw [setActiveEnvironment]
  simp [hany]

/-- C10 witness: a miss on a concrete store. -/
theorem setActiveEnvironment_unknown_id_witness :
    setActiveEnvironment "zz" [envA, envB] = (false, [envA, envB]) :=
  setActiveEnvironment_unknown_id "zz" [envA, envB] (by decide)

lemma countP_modifyFirst (p : Environment → Bool) (f : Environment → Environment)
    (hf : ∀ e, (f e).isActive = e.isActive) :
    ∀ l : List Environment,
      ((modifyFirst p f l).2).countP (fun e => e.isActive) =
        l.countP (fun e => e.isActive) := by
  intro l
  induction l with
  | nil => rfl
  | cons e t ih =>
    by_cases hp : p e = true
    · simp [modifyFirst, hp, List.countP_cons, hf]
    · simp only [Bool.not_eq_true] at hp
      simp [modifyFirst, hp, List.countP_cons, ih]

lemma countP_updateEnvironment (id : String) (u : EnvUpdates) (now : Nat)
    (hu : u.isActive = none) :
    ∀ l : List Environment,
      ((updateEnvironment id u now l).2).countP (fun e => e.isActive) =
        l.countP (fun e => e.isActive) := by
  intro l
  induction l with
  | nil => rfl
  | cons e t ih =>
    by_cases hp : e.id = id
    · have : (applyUpdates e u now).isActive = e.isActive := by
        simp [applyUpdates, hu]
      simp [updateEnvironment, hp, List.countP_cons, this]
    · simp [updateEnvironment, hp, List.countP_cons, ih]

lemma countP_id_le_one (id : String) :
    ∀ l : List Environment, (l.map (fun e => e.id)).Nodup →
      l.countP (fun e => (e.id = id : Bool)) ≤ 1 := by
  intro l
  induction l with
  | nil => intro _; simp
  | cons e t ih =>
    intro hnd
    rw [List.map_cons] at hnd
    rcases List.nodup_cons.mp hnd with ⟨hm, hnd'⟩
    rw [List.countP_cons]
    by_cases he : e.id = id
    · have ht : t.countP (fun x => (x.id = id : Bool)) = 0 := by
        rw [List.countP_eq_zero]
        intro x hx
        simp only [decide_eq_true_eq]
        intro hxid
        refine hm ?_
        rw [he, ← hxid]
        exact List.mem_map_of_mem (fun e => e.id) hx
      simp [he, ht]
    · have hd : (decide (e.id = id)) = false := by simp [he]
      simp only [hd, Bool.false_eq_true, if_false, Nat.add_zero]
      exact ih hnd'

lemma countP_filter_le_env (q : Environment → Bool) :
    ∀ l : List Environment,
      ((l.filter q).countP (fun e => e.isActive)) ≤ l.countP (fun e => e.isActive) := by
  intro l
  induction l with
  | nil => simp
  | cons e t ih =>
    by_cases hq : q e = true
    · simp only [List.filter_cons, hq, if_true, List.countP_cons]
      omega
    · simp only [Bool.not_eq_true] at hq
      simp only [List.filter_cons, hq, Bool.false_eq_true, if_false, List.countP_cons]
      omega

/-- C6 (amended): every environment-store operation except a patching
update that sets `isActive` preserves the at-most-one-active invariant
(`setActiveEnvironment` assuming stored ids are pairwise distinct);
`setActiveEnvironment` flags exactly the environments with the given id
and clears all others in the same update, and a successful delete that
leaves survivors always leaves some environment flagged active. -/
theorem environmentOps_active_invariant :
    (∀ (name : String) (vars : List (String × String)) (now : Nat) (fresh : String)
        (l : List Environment), atMostOneActive l →
        atMostOneActive (createEnvironment name vars now fresh l).2) ∧
    (∀ (id : String) (u : EnvUpdates) (now : Nat) (l : List Environment),
        u.isActive = none → atMostOneActive l →
        atMostOneActive (updateEnvironment id u now l).2) ∧
    (∀ (id : String) (l : List Environment), atMostOneActive l →
        (l.map (fun e => e.id)).Nodup →
        atMostOneActive (setActiveEnvironment id l).2) ∧
    (∀ (id : String) (l : List Environment), atMostOneActive l →
        atMostOneActive (deleteEnvironment id l).2) ∧
    (∀ (envId key value : String) (now : Nat) (l : List Environment), atMostOneActive l →
        atMostOneActive (setVariable envId key value now l).2) ∧
    (∀ (envId key : String) (now : Nat) (l : List Environment), atMostOneActive l →
        atMostOneActive (deleteVariable envId key now l).2) ∧
    (∀ (name : String) (vars : List (String × String)) (sourceFile : String) (now : Nat)
        (l : List Environment), atMostOneActive l →
        atMostOneActive (createOrUpdateFromFile name vars sourceFile now l)) ∧
    (∀ (id : String) (l : List Environment), (setActiveEnvironment id l).1 = true →
        ∀ e ∈ (setActiveEnvironment id l).2, (e.isActive = true ↔ e.id = id)) ∧
    (∀ (id : String) (l : List Environment), (∃ e ∈ l, e.id = id) →
        (∃ e ∈ l, e.id ≠ id) →
        ∃ e ∈ (deleteEnvironment id l).2, e.isActive = true) := by
  refine ⟨?_, ?_, ?_, ?_, ?_, ?_, ?_, ?_, ?_⟩
  · -- createEnvironment
    intro name vars now fresh l h
    rw [atMostOneActive] at h ⊢
    simp only [createEnvironment, List.countP_append]
    by_cases hl : l.length = 0
    · have : l = [] := List.eq_nil_of_length_eq_zero hl
      subst this
      simp
    · have hd : (decide (l.length = 0)) = false := by simp [hl]
      simp only [List.countP_cons, List.countP_nil, hd, Bool.false_eq_true, if_false]
      omega
  · -- updateEnvironment with no isActive patch
    intro id u now l hu h
    rw [atMostOneActive] at h ⊢
    rw [countP_updateEnvironment id u now hu l]
    exact h
  · -- setActiveEnvironment
    intro id l h hnd
    rw [atMostOneActive] at h ⊢
    rw [setActiveEnvironment]
    by_cases hf : l.any (fun e => (e.id = id : Bool)) = true
    · simp only [hf, if_true]
      rw [List.countP_map]
      exact countP_id_le_one id l hnd
    · simp only [Bool.not_eq_true] at hf
      simpa [hf] using h
  · -- deleteEnvironment
    intro id l h
    rw [atMostOneActive] at h ⊢
    rw [deleteEnvironment]
    by_cases hlen : (l.filter (fun e => !(e.id = id : Bool))).length = l.length
    · simpa [hlen] using h
    · simp only [hlen, if_false]
      by_cases hact : (l.filter (fun e => !(e.id = id : Bool))).any (fun e => e.isActive) = true
      · simp only [hact, Bool.not_true, Bool.false_and, Bool.false_eq_true, if_false]
        exact Nat.le_trans (countP_filter_le_env _ l) h
      · simp only [Bool.not_eq_true] at hact
        cases hfil : l.filter (fun e => !(e.id = id : Bool)) with
        | nil => simp [hfil]
        | cons f t =>
          rw [hfil] at hact
          have hconj := hact
          simp only [List.any_cons, Bool.or_eq_false_iff] at hconj
          have ht0 : t.countP (fun e => e.isActive) = 0 := by
            rw [List.countP_eq_zero]
            intro x hx
            simpa using List.any_eq_false.mp hconj.2 x hx
          simp only [hact, Bool.not_false, hfil, List.isEmpty_cons, Bool.true_and, if_true]
          rw [List.countP_cons, ht0]
          simp
  · -- setVariable
    intro envId key value now l h
    rw [atMostOneActive] at h ⊢
    rw [setVariable]
    cases l.find? (fun e => (e.id = envId : Bool)) with
    | none => exact h
    | some env =>
      dsimp only
      rw [countP_modifyFirst (fun e => (e.id = envId : Bool))
        (fun e => { e with vars := upsertVar e.vars key value, updatedAt := now })
        (fun e => rfl) l]
      exact h
  · -- deleteVariable
    intro envId key now l h
    rw [atMostOneActive] at h ⊢
    rw [deleteVariable]
    cases l.find? (fun e => (e.id = envId : Bool)) with
    | none => exact h
    | some env =>
      by_cases hk : env.vars.any (fun p => (p.1 = key : Bool)) = true
      · simp only [hk, if_true]
        rw [countP_modifyFirst (fun e => (e.id = envId : Bool))
          (fun e => { e with vars := deleteVarKey e.vars key, updatedAt := now })
          (fun e => rfl) l]
        exact h
      · simp only [Bool.not_eq_true] at hk
        simp only [hk, Bool.false_eq_true, if_false]
        exact h
  · -- createOrUpdateFromFile
    intro name vars sourceFile now l h
    rw [atMostOneActive] at h ⊢
    rw [createOrUpdateFromFile]
    cases l.find? (fun e => (e.name = "[File] " ++ name : Bool)) with
    | none =>
      dsimp only
      simp only [List.countP_append, List.countP_cons, List.countP_nil]
      simpa using h
    | some env =>
      dsimp only
      rw [countP_modifyFirst (fun e => (e.name = "[File] " ++ name : Bool))
        (fun e => { e with vars := vars, updatedAt := now })
        (fun e => rfl) l]
      exact h
  · -- setActiveEnvironment behaviour on success
    intro id l hf e he
    rw [setActiveEnvironment] at hf he
    simp only at hf
    rw [if_pos hf] at he
    rcases List.mem_map.mp he with ⟨x, _, rfl⟩
    simp
  · -- delete promotes a survivor
    intro id l hdel hsurv
    rcases hdel with ⟨e0, he0, hid0⟩
    rcases hsurv with ⟨e1, he1, hid1⟩
    rw [deleteEnvironment]
    have hlen : (l.filter (fun e => !(e.id = id : Bool))).length < l.length := by
      apply List.length_filter_lt_length_iff_exists.mpr
      exact ⟨e0, he0, by simp [hid0]⟩
    have hlen' : ¬ (l.filter (fun e => !(e.id = id : Bool))).length = l.length :=
      Nat.ne_of_lt hlen
    simp only [hlen', if_false]
    have hmem : e1 ∈ l.filter (fun e => !(e.id = id : Bool)) :=
      List.mem_filter.mpr ⟨he1, by simp [hid1]⟩
    by_cases hact : (l.filter (fun e => !(e.id = id : Bool))).any (fun e => e.isActive) = true
    · rcases List.any_eq_true.mp hact with ⟨ea, hea, heact⟩
      simp only [hact, Bool.not_true, Bool.false_and, Bool.false_eq_true, if_false]
      exact ⟨ea, hea, heact⟩
    · simp only [Bool.not_eq_true] at hact
      cases hfil : l.filter (fun e => !(e.id = id : Bool)) with
      | nil => rw [hfil] at hmem; simp at hmem
      | cons f t =>
        rw [hfil] at hact
        simp only [hact, Bool.not_false, hfil, List.isEmpty_cons, Bool.true_and, if_true]
        exact ⟨{ f with isActive := true }, List.mem_cons_self _ _, rfl⟩

/-- C6 (counterexample): starting from a store satisfying the invariant,
`updateEnvironment` applied with a patch `{isActive: true}` to an
inactive environment leaves two environments flagged active. -/
theorem updateEnvironment_active_counterexample :
    atMostOneActive [envA, envB] ∧
    ¬ atMostOneActive (updateEnvironment "e2" activatePatch 9 [envA, envB]).2 := by
  constructor
  · unfold atMostOneActive; decide
  · unfold atMostOneActive; decide

/-- C6 witness: concrete instances of the preserved invariant and of the
set-active/delete behaviour. -/
theorem environmentOps_active_invariant_witness :
    (atMostOneActive (createEnvironment "N" [] 1 "idN" [envA]).2 ∧
     atMostOneActive (updateEnvironment "e2" { name := some "R" } 2 [envA, envB]).2 ∧
     atMostOneActive (setActiveEnvironment "e2" [envA, envB]).2 ∧
     atMostOneActive (deleteEnvironment "e1" [envA, envB]).2) ∧
    (∀ e ∈ (setActiveEnvironment "e2" [envA, envB]).2, (e.isActive = true ↔ e.id = "e2")) ∧
    (∃ e ∈ (deleteEnvironment "e1" [envA, envB]).2, e.isActive = true) :=
  ⟨⟨environmentOps_active_invariant.1 "N" [] 1 "idN" [envA]
      (by unfold atMostOneActive; decide),
    environmentOps_active_invariant.2.1 "e2" { name := some "R" } 2 [envA, envB] rfl
      (by unfold atMostOneActive; decide),
    environmentOps_active_invariant.2.2.1 "e2" [envA, envB]
      (by unfold atMostOneActive; decide) (by decide),
    environmentOps_active_invariant.2.2.2.1 "e1" [envA, envB]
      (by unfold atMostOneActive; decide)⟩,
   environmentOps_active_invariant.2.2.2.2.2.2.2.1 "e2" [envA, envB] (by decide),
   environmentOps_active_invariant.2.2.2.2.2.2.2.2 "e1" [envA, envB]
     ⟨envA, by decide, by decide⟩ ⟨envB, by decide, by decide⟩⟩

/-- C9 (amended): `importEnvironment` yields `null` with the store
unchanged when parsing fails or when the `name` or `variables` field is
absent **or falsy** (so a present but empty-string name is also
rejected); when both fields are truthy (typed payloads: string name,
string-map variables) it creates, appends and returns a fresh
environment carrying exactly that name and those variables. -/
theorem importEnvironment_behavior :
    (∀ (now : Nat) (fresh : String) (l : List Environment),
        importEnvironment none now fresh l = (none, l)) ∧
    (∀ (data : Json) (now : Nat) (fresh : String) (l : List Environment),
        (jsTruthyOpt (getField data "name") && jsTruthyOpt (getField data "variables")) = false →
        importEnvironment (some data) now fresh l = (none, l)) ∧
    (∀ (data : Json) (s : String) (varsJ : Json) (kvs : List (String × String))
        (now : Nat) (fresh : String) (l : List Environment),
        getField data "name" = some (Json.str s) → s ≠ "" →
        getField data "variables" = some varsJ → jsTruthy varsJ = true →
        asVarMap varsJ = some kvs →
        importEnvironment (some data) now fresh l =
          (some { id := fresh, name := s, vars := kvs, isActive := (l.length = 0 : Bool),
                  createdAt := now, updatedAt := now },
           l ++ [{ id := fresh, name := s, vars := kvs, isActive := (l.length = 0 : Bool),
                   createdAt := now, updatedAt := now }])) := by
  refine ⟨fun now fresh l => rfl, ?_, ?_⟩
  · intro data now fresh l h
    rw [importEnvironment]
    simp only [h, Bool.false_eq_true, if_false]
  · intro data s varsJ kvs now fresh l hname hs hvars htru hmap
    rw [importEnvironment]
    have h1 : jsTruthy (Json.str s) = true := by simp [jsTruthy, hs]
    simp only [hname, hvars, jsTruthyOpt, hmap, h1, htru, Bool.true_and, if_true,
      createEnvironment]

/-- C9 (counterexample): `{"name": "", "variables": {}}` carries both
fields, yet `importEnvironment` returns `null` and leaves the store
unchanged, because the empty-string name is falsy. -/
theorem importEnvironment_falsy_counterexample :
    importEnvironment (some importBadPayload) 0 "id1" [] = (none, []) ∧
    getField importBadPayload "name" = some (Json.str "") ∧
    getField importBadPayload "variables" = some (Json.obj []) :=
  ⟨rfl, rfl, rfl⟩

/-- C9 witness: concrete instances of the parse-failure case and of a
successful import. -/
theorem importEnvironment_behavior_witness :
    importEnvironment none 3 "idF" [envA] = (none, [envA]) ∧
    importEnvironment (some (Json.obj [("name", Json.str "Prod"),
        ("variables", Json.obj [("A", Json.str "1")])])) 3 "idF" [envA] =
      (some { id := "idF", name := "Prod", vars := [("A", "1")],
              isActive := ([envA].length = 0 : Bool), createdAt := 3, updatedAt := 3 },
       [envA] ++ [{ id := "idF", name := "Prod", vars := [("A", "1")],
                    isActive := ([envA].length = 0 : Bool), createdAt := 3, updatedAt := 3 }]) :=
  ⟨importEnvironment_behavior.1 3 "idF" [envA],
   importEnvironment_behavior.2.2 (Json.obj [("name", Json.str "Prod"),
       ("variables", Json.obj [("A", Json.str "1")])]) "Prod"
     (Json.obj [("A", Json.str "1")]) [("A", "1")] 3 "idF" [envA]
     rfl (by decide) rfl rfl rfl⟩

/-- C4 (amended): `extractPathParams` collects the parameter names
grouped by syntax — all colon parameters in order of appearance, then
all `{}`/`[]` parameters, then all `<>` parameters — which coincides
with order of appearance on single-syntax paths, as in the three spec
examples. -/
theorem extractPathParams_grouped :
    (∀ p : String, extractPathParams p = colonParams p ++ bracketParams p ++ angleParams p) ∧
    extractPathParams "/users/:id/posts/:postId" = ["id", "postId"] ∧
    extractPathParams "/users/\x7bid\x7d" = ["id"] ∧
    extractPathParams "/users/<id>" = ["id"] :=
  ⟨fun _ => rfl, by decide, by decide, by decide⟩

/-- C4 (counterexample): on the mixed-syntax path `/a/{id}/b/:pid` the
colon parameter is listed before the earlier-appearing bracket
parameter, so the output is not in order of appearance. -/
theorem extractPathParams_order_counterexample :
    extractPathParams "/a/\x7bid\x7d/b/:pid" = ["pid", "id"] ∧
    extractPathParams "/a/\x7bid\x7d/b/:pid" ≠ ["id", "pid"] :=
  ⟨by decide, by decide⟩

lemma drop_length_takeWhile (p : Char → Bool) :
    ∀ l : List Char, l.drop (l.takeWhile p).length = l.dropWhile p := by
  intro l
  induction l with
  | nil => rfl
  | cons c t ih =>
    by_cases hc : p c = true
    · simp [List.takeWhile_cons, List.dropWhile_cons, hc, ih]
    · simp only [Bool.not_eq_true] at hc
      simp [List.takeWhile_cons, List.dropWhile_cons, hc]

lemma dropWhile_head_false (p : Char → Bool) :
    ∀ (l : List Char) (d : Char) (rest : List Char),
      l.dropWhile p = d :: rest → p d = false := by
  intro l
  induction l with
  | nil => intro d rest h; simp at h
  | cons c t ih =>
    intro d rest h
    by_cases hc : p c = true
    · rw [List.dropWhile_cons, if_pos hc] at h
      exact ih d rest h
    · simp only [Bool.not_eq_true] at hc
      rw [List.dropWhile_cons, if_neg (by simp [hc])] at h
      cases h
      exact hc

lemma stripSymQuotes_via (v : List Char) :
    (match v.head?, v.getLast? with
     | some a, some b =>
       if a = b ∧ (a = '\x22' ∨ a = '\x27') then (v.drop 1).dropLast else v
     | _, _ => v) = stripSymQuotes v := by
  cases v with
  | nil => simp [stripSymQuotes]
  | cons c t =>
    rcases hgl : (c :: t).getLast? with _ | b
    · simp at hgl
    · simp only [List.head?_cons]
      rw [stripSymQuotes]
      by_cases h1 : c = b
      · subst h1
        by_cases h2 : c = '\x22'
        · subst h2
          simp [hgl]
        · by_cases h3 : c = '\x27'
          · subst h3
            simp [hgl]
          · simp [hgl, h2, h3]
      · simp only [hgl]
        rw [if_neg (fun h => h1 h.1)]
        rw [if_neg ?_]
        rintro (⟨ha, hb⟩ | ⟨ha, hb⟩)
        · exact h1 (by
            have hc : c = '\x22' := by simpa using ha
            have hb' : b = '\x22' := by simpa using hb
            rw [hc, hb'])
        · exact h1 (by
            have hc : c = '\x27' := by simpa using ha
            have hb' : b = '\x27' := by simpa using hb
            rw [hc, hb'])

lemma envContractLine_via (line : List Char) :
    envContractLine line =
      (if (jsTrim line).isEmpty then none
       else if (jsTrim line).head? = some '#' then none
       else
         match envLineKV (jsTrim line) with
         | some (k, v) =>
           some (String.mk (jsTrim k), String.mk (stripSymQuotes (jsTrim v)))
         | none => none) := by
  rw [envContractLine]
  by_cases h1 : (jsTrim line).isEmpty = true
  · simp [h1]
  · simp only [Bool.not_eq_true] at h1
    simp only [h1, Bool.false_eq_true, if_false]
    by_cases h2 : (jsTrim line).head? = some '#'
    · simp [h2]
    · simp only [h2, if_false]
      rw [envLineKV, List.span_eq_take_drop, drop_length_takeWhile]
      cases hdw : (jsTrim line).dropWhile (fun c => !(c = '=' : Bool)) with
      | nil =>
        by_cases hk : ((jsTrim line).takeWhile (fun c => !(c = '=' : Bool))).isEmpty = true
        · simp [hk]
        · simp only [Bool.not_eq_true] at hk
          simp [hk]
      | cons d rest =>
        have hd : (!(d = '=' : Bool)) = false := dropWhile_head_false _ _ d rest hdw
        have hd' : d = '=' := by simpa using hd
        subst hd'
        by_cases hk : ((jsTrim line).takeWhile (fun c => !(c = '=' : Bool))).isEmpty = true
        · simp [hk]
        · simp only [Bool.not_eq_true] at hk
          simp only [hk, Bool.false_eq_true, if_false]
          rw [stripSymQuotes_via]

lemma foldl_filterMap {α β γ : Type} (f : α → Option β) (g : γ → β → γ) :
    ∀ (l : List α) (init : γ),
      (l.filterMap f).foldl g init =
        l.foldl (fun a x => match f x with | some b => g a b | none => a) init := by
  intro l
  induction l with
  | nil => intro init; rfl
  | cons x t ih =>
    intro init
    rw [List.filterMap_cons]
    cases hf : f x with
    | none => simp only [List.foldl_cons, hf, ih]
    | some b => simp only [List.foldl_cons, hf, ih]

lemma parseEnvLines_eq :
    ∀ (lines : List (List Char)) (acc : List (String × String)),
      parseEnvLines acc lines =
        lines.foldl
          (fun a line =>
            match envContractLine line with
            | some p => upsertVar a p.1 p.2
            | none => a) acc := by
  intro lines
  induction lines with
  | nil => intro acc; rfl
  | cons line rest ih =>
    intro acc
    rw [List.foldl_cons, envContractLine_via line]
    by_cases h1 : (jsTrim line).isEmpty = true
    · rw [parseEnvLines]
      simp only [h1, if_true, ih]
    · simp only [Bool.not_eq_true] at h1
      rw [parseEnvLines]
      simp only [h1, Bool.false_eq_true, if_false]
      by_cases h2 : (jsTrim line).head? = some '#'
      · simp only [h2, if_true, ih]
      · simp only [h2, if_false]
        cases hkv : envLineKV (jsTrim line) with
        | none => simp only [ih]
        | some p => rcases p with ⟨k, v⟩; simp only [ih]

/-- C8: `.env` parsing satisfies the documented contract — lines are
processed in order, blank and `#`-comment lines are skipped, each
remaining `key=value` line (split at its first `=`) binds the trimmed
key to the trimmed value with one symmetric level of surrounding quotes
stripped; the spec's examples evaluate accordingly. -/
theorem parseEnvFile_contract :
    (∀ content : String, parseEnvFile content = parseEnvFileContract content) ∧
    parseEnvFile "KEY=\x22value with spaces\x22" = [("KEY", "value with spaces")] ∧
    parseEnvFile "#KEY=1\nA=2" = [("A", "2")] := by
  refine ⟨?_, by decide, by decide⟩
  intro content
  rw [parseEnvFile, parseEnvFileContract, foldl_filterMap, parseEnvLines_eq]
  apply List.foldl_ext
  intro a x _
  cases envContractLine x <;> rfl

/-- C1: the Flask extractor mishandles the inline-verb pattern — on a
Flask file using `@app.get('/users')` the flask-family result has the
capture groups swapped, yielding method `"/USERS"` (not an HTTP verb)
and path `"/get"` instead of `(GET, /users)`; and the bare single-line
fixture is classified as `fastapi`, not `flask`, so no flask-family
endpoint `(GET, /users, flask)` is ever produced for this call shape. -/
theorem endpointDiscovery_flask_inline_code_bug :
    parseFileForEndpoints flaskFixture "app.py" =
      [{ method := "/USERS", path := "/get", file := "app.py", line := 1,
         framework := "flask", params := [] },
       { method := "GET", path := "/users", file := "app.py", line := 1,
         framework := "fastapi", params := [] }] ∧
    discoverSingleFile "@app.get(\x27/users\x27)" "app.py" =
      [{ method := "GET", path := "/users", file := "app.py", line := 0,
         framework := "fastapi", params := [] }] :=
  ⟨by decide, by decide⟩
